import Mathlib

/-!
Shallow embedding of the `analyze-rust-1.70` repository (a denormalizer for
rustdoc JSON output) in Lean 4, together with theorems settling the frozen
claims about its specification.

Source files embedded:
  - `src/lib.rs`    : the `Crate` denormalizer, signature formatters,
                      stability parsing, sorting/dedup, `append`;
  - `src/database.rs`: the id-indexed `Database` with its alias-chasing
                      `find_*` resolvers;
  - `src/analyze/mod.rs` and `src/analyze/const_.rs`: the classification
                      counters;
  - `src/main.rs`   : an older standalone revision; only its own
                      `format_where_bounds`/`format_type` copy is embedded
                      (it differs from the `lib.rs` one).

Machine integers (`usize` counters) can never overflow at the sizes involved
and are modelled as `Nat`.  Rust `String`s are Lean `String`s; the byte-wise
lexicographic `Ord` of Rust strings is modelled as codepoint-wise comparison
(`str_cmp` below), which agrees with Rust on all inputs appearing here.
A Rust function that can panic is modelled with `Option` (`none` = panic).
-/

/-- `Stability` from `src/lib.rs` (declaration order `Stable`, `Unstable`,
which is also its derived `Ord` order). -/
inductive Stability where
  | Stable : Stability
  | Unstable : Stability
deriving DecidableEq

/-- `Stability::is_stable` from `src/lib.rs`. -/
def Stability.is_stable : Stability → Bool
  | .Stable => true
  | .Unstable => false

/-- `Stability::is_unstable` from `src/lib.rs`. -/
def Stability.is_unstable : Stability → Bool
  | .Stable => false
  | .Unstable => true

/-- Rust `str::starts_with` on strings, modelled on the character lists. -/
def str_starts_with (target pat : String) : Bool :=
  pat.toList.isPrefixOf target.toList

/-- Helper for `str_contains`: does `pat` occur as a contiguous slice of `l`? -/
def list_contains_slice (pat : List Char) : List Char → Bool
  | [] => pat.isEmpty
  | c :: rest => pat.isPrefixOf (c :: rest) || list_contains_slice pat rest

/-- Rust `str::contains` with a string pattern (substring occurrence),
modelled on the character lists. -/
def str_contains (target pat : String) : Bool :=
  list_contains_slice pat.toList target.toList

/-- `parse_stability` from `src/lib.rs`: an item is `Stable` iff some
attribute string contains the substring `"#[stable"`; the running value
starts `Unstable` and is overwritten on each match. -/
def parse_stability (attrs : List String) : Stability :=
  attrs.foldl
    (fun val attr => if str_contains attr "#[stable" then Stability.Stable else val)
    Stability.Unstable

/-- rustdoc item identifier (`rustdoc_types::Id`, a string newtype); named `RId` to avoid the core `Id`. -/
abbrev RId := String

/-- `rustdoc_types::Path` restricted to the fields this program reads
(`name` for rendering, `id` for resolving an implemented trait). -/
structure RPath where
  name : String
  id : RId
deriving DecidableEq

/-- `rustdoc_types::TraitBoundModifier`. -/
inductive TraitBoundModifier where
  | none : TraitBoundModifier
  | maybe : TraitBoundModifier
  | maybeConst : TraitBoundModifier
deriving DecidableEq

/-- `rustdoc_types::Term`; the `Constant` payload is never read
(`format_constant` ignores it), so it carries no data here. -/
inductive RTerm (τ : Type) where
  | type : τ → RTerm τ
  | constant : RTerm τ

/-- `rustdoc_types::GenericBound`; `generic_params` (HRTBs) is never read.
The `Outlives` payload (a lifetime string) is kept. -/
inductive GenericBound where
  | traitBound (trait_ : RPath) (modifier : TraitBoundModifier) : GenericBound
  | outlives (lt : String) : GenericBound

/-- `rustdoc_types::Type` restricted to the fields this program reads.
`functionPointer`'s payload is never read.  `dynTrait` keeps the `trait_`
path of each `PolyTrait` (the only field read).  `infer` stands for the
variants reaching the catch-all debug arm of `format_type`. -/
inductive RustType where
  | generic (g : String) : RustType
  | qualifiedPath (name : String) (self_type : RustType) : RustType
  | borrowedRef (lifetime : Option String) (mutable : Bool) (type_ : RustType) : RustType
  | primitive (p : String) : RustType
  | resolvedPath (path : RPath) : RustType
  | tuple (data : List RustType) : RustType
  | slice (t : RustType) : RustType
  | rawPointer (mutable : Bool) (type_ : RustType) : RustType
  | functionPointer : RustType
  | dynTrait (traits : List RPath) : RustType
  | implTrait (bounds : List GenericBound) : RustType
  | array (type_ : RustType) (len : String) : RustType
  | infer : RustType

/-- `rustdoc_types::WherePredicate`; `generic_params` (HRTBs) is never read. -/
inductive WherePredicate where
  | boundPredicate (type_ : RustType) (bounds : List GenericBound) : WherePredicate
  | regionPredicate (lifetime : String) (bounds : List GenericBound) : WherePredicate
  | eqPredicate (lhs : RustType) (rhs : RTerm RustType) : WherePredicate

/-- `rustdoc_types::GenericParamDefKind`. -/
inductive GenericParamDefKind where
  | lifetime (outlives : List String) : GenericParamDefKind
  | type (bounds : List GenericBound) (default : Option RustType) (synthetic : Bool) :
      GenericParamDefKind
  | const (type_ : RustType) (default : Option String) : GenericParamDefKind

/-- `rustdoc_types::GenericParamDef`. -/
structure GenericParamDef where
  name : String
  kind : GenericParamDefKind

/-- `rustdoc_types::Generics`. -/
structure Generics where
  params : List GenericParamDef
  where_predicates : List WherePredicate

/-- Is this generic parameter a lifetime parameter? -/
def GenericParamDefKind.isLifetime : GenericParamDefKind → Bool
  | .lifetime _ => true
  | _ => false

/-- Is this where-predicate a bound predicate? -/
def WherePredicate.isBound : WherePredicate → Bool
  | .boundPredicate _ _ => true
  | _ => false

/-- Is this where-predicate a region (lifetime) predicate? -/
def WherePredicate.isRegion : WherePredicate → Bool
  | .regionPredicate _ _ => true
  | _ => false

/-- `contains_generics` from `src/lib.rs`: count non-lifetime parameters and
bound-form where-predicates; generics are used iff that sum is nonzero. -/
def contains_generics (generics : Generics) : Bool :=
  let params := (generics.params.filter (fun p => !p.kind.isLifetime)).length
  let wheres := (generics.where_predicates.filter (fun p => p.isBound)).length
  decide ((params + wheres) ≠ 0)

/-- Deterministic stand-in for the derived `Debug` rendering of a type, used
only inside the "cannot format"/"todo format" fallback arms.  The program
never inspects this text, so only its determinism matters; the exact Rust
`Debug` output is abstracted to the variant's constructor name. -/
def debug_type : RustType → String
  | .generic _ => "Generic"
  | .qualifiedPath _ _ => "QualifiedPath"
  | .borrowedRef _ _ _ => "BorrowedRef"
  | .primitive _ => "Primitive"
  | .resolvedPath _ => "ResolvedPath"
  | .tuple _ => "Tuple"
  | .slice _ => "Slice"
  | .rawPointer _ _ => "RawPointer"
  | .functionPointer => "FunctionPointer"
  | .dynTrait _ => "DynTrait"
  | .implTrait _ => "ImplTrait"
  | .array _ _ => "Array"
  | .infer => "Infer"

/-- `format_generic_bounds` from `src/lib.rs` (identical copy in
`src/main.rs`): trait bounds render with their modifier prefix, outlives
bounds are skipped, and a non-empty list is prefixed with `": "`. -/
def format_generic_bounds (bounds : List GenericBound) : String :=
  let out := bounds.filterMap (fun bound =>
    match bound with
    | .traitBound trait_ modifier =>
      let m := match modifier with
        | .none => ""
        | .maybe => "?"
        | .maybeConst => "~const "
      some (m ++ trait_.name)
    | .outlives _ => none)
  match out.length with
  | 0 => ""
  | _ + 1 => ": " ++ String.intercalate " + " out

mutual

/-- `format_type` from `src/lib.rs`.  The final catch-all arm of the source
(`ty => format!("todo format type: {ty:?}>")`) is reached exactly by the
`infer` variant here. -/
def format_type : RustType → String
  | .generic generic => generic
  | .qualifiedPath name self_type => format_type self_type ++ "::" ++ name
  | .borrowedRef lifetime mutable type_ =>
    let lt := match lifetime with
      | some l => l
      | none => ""
    let m := if mutable then " mut" else ""
    "&" ++ lt ++ m ++ " " ++ format_type type_
  | .primitive ty => ty
  | .resolvedPath path => path.name
  | .tuple data => String.intercalate ", " (format_type_list data)
  | .slice ty => format_type ty
  | .rawPointer mutable type_ =>
    if mutable then "*mut " ++ format_type type_ else "*const " ++ format_type type_
  | .functionPointer => "<todo: fn pointer>"
  | .dynTrait traits => "dyn " ++ String.intercalate " + " (traits.map (fun t => t.name))
  | .implTrait bounds => "impl " ++ format_generic_bounds bounds
  | .array type_ len => "[" ++ format_type type_ ++ "; " ++ len ++ "]"
  | .infer => "todo format type: " ++ debug_type .infer ++ ">"

/-- `format_type` mapped over a tuple's element list. -/
def format_type_list : List RustType → List String
  | [] => []
  | t :: ts => format_type t :: format_type_list ts

end

/-- `format_term` from `src/lib.rs`; `format_constant` renders the fixed
placeholder for any constant. -/
def format_term : RTerm RustType → String
  | .type ty => format_type ty
  | .constant => "todo: format constants"

/-- `format_generic_params` from `src/lib.rs`: lifetimes are skipped, type
parameters render `name[: bounds][ = default]` (the `synthetic` skip is
commented out in this revision), const parameters render with the debug form
of their type; a non-empty list is wrapped in angle brackets. -/
def format_generic_params (params : List GenericParamDef) : String :=
  let out := params.filterMap (fun param =>
    match param.kind with
    | .lifetime _ => none
    | .type bounds default _ =>
      let b := format_generic_bounds bounds
      let d := match default with
        | some ty => " = " ++ format_type ty
        | none => ""
      some (param.name ++ b ++ d)
    | .const type_ default =>
      match default with
      | some d => some ("const " ++ param.name ++ ": " ++ debug_type type_ ++ " = " ++ d)
      | none => some ("const " ++ param.name ++ ": " ++ debug_type type_))
  match out.length with
  | 0 => ""
  | _ + 1 => "<" ++ String.intercalate ", " out ++ ">"

/-- The rendering of one where-predicate inside `format_where_bounds` of
`src/lib.rs`: bound predicates render `Type: Bounds` (the colon comes from
`format_generic_bounds`), region predicates push the literal placeholder
`"todo: region predicate"`, equality predicates render `Lhs = Rhs`. -/
def format_where_pred : WherePredicate → String
  | .boundPredicate type_ bounds => format_type type_ ++ format_generic_bounds bounds
  | .regionPredicate _ _ => "todo: region predicate"
  | .eqPredicate lhs rhs => format_type lhs ++ " = " ++ format_term rhs

/-- `format_where_bounds` from `src/lib.rs`: every predicate pushes exactly
one entry; a non-empty list is joined by `", "` and prefixed with
`" where "`. -/
def format_where_bounds (predicates : List WherePredicate) : String :=
  let out := predicates.map format_where_pred
  match out.length with
  | 0 => ""
  | _ + 1 => " where " ++ String.intercalate ", " out

/-- `rustdoc_types::Header` (function qualifiers). -/
structure FnHeader where
  const_ : Bool
  unsafe_ : Bool
  async_ : Bool
deriving DecidableEq

/-- `rustdoc_types::FnDecl` restricted to the fields this program reads. -/
structure FnDecl where
  inputs : List (String × RustType)
  output : Option RustType

/-- `rustdoc_types::Function` restricted to the fields this program reads. -/
structure RFunction where
  decl : FnDecl
  generics : Generics
  header : FnHeader
  has_body : Bool

/-- `format_function` from `src/lib.rs`.  Note two peculiarities of the
source, reproduced here: the special case returning a fixed string for any
function named `merge_sort`, and the `is_unsafe` prefix being driven by
`fn_.header.const_` (not `unsafe_`). -/
def format_function (name : String) (fn_ : RFunction) : String :=
  if name = "merge_sort" then "<merge sort is unstable and annoyingly complicated>"
  else
    let is_const := if fn_.header.const_ then "const " else ""
    let is_unsafe := if fn_.header.const_ then "unsafe " else ""
    let is_async := if fn_.header.async_ then "async " else ""
    let body := if fn_.has_body then " \x7b .. \x7d" else ";"
    let output := match fn_.decl.output with
      | some ty => " -> " ++ format_type ty
      | none => ""
    let args := String.intercalate ", "
      (fn_.decl.inputs.map (fun p => p.1 ++ ": " ++ format_type p.2))
    let params := format_generic_params fn_.generics.params
    let where_bounds := format_where_bounds fn_.generics.where_predicates
    is_const ++ is_unsafe ++ is_async ++ "fn " ++ name ++ params ++ "(" ++ args ++ ")" ++
      output ++ where_bounds ++ body

/-- `rustdoc_types::Trait` restricted to the fields this program reads. -/
structure RTrait where
  is_auto : Bool
  is_unsafe : Bool
  items : List RId
  generics : Generics
  bounds : List GenericBound

/-- `format_trait` from `src/lib.rs`. -/
def format_trait (name : String) (trait_ : RTrait) : String :=
  let is_auto := if trait_.is_auto then "auto " else ""
  let is_unsafe := if trait_.is_unsafe then "unsafe " else ""
  let params := format_generic_params trait_.generics.params
  let where_bounds := format_where_bounds trait_.generics.where_predicates
  let trait_bounds := format_generic_bounds trait_.bounds
  is_unsafe ++ is_auto ++ "trait " ++ name ++ params ++ trait_bounds ++ " " ++
    where_bounds ++ "\x7b \x7d"

/-- `rustdoc_types::Struct` restricted to the fields this program reads. -/
structure RStruct where
  generics : Generics
  impls : List RId

/-- `format_struct` from `src/lib.rs`. -/
def format_struct (name : String) (strukt : RStruct) : String :=
  let params := format_generic_params strukt.generics.params
  let where_bounds := format_where_bounds strukt.generics.where_predicates
  "struct " ++ name ++ params ++ " " ++ where_bounds ++ " \x7b .. \x7d"

/-- `rustdoc_types::Enum` restricted to the fields this program reads. -/
structure REnum where
  generics : Generics
  impls : List RId

/-- `format_enum` from `src/lib.rs`. -/
def format_enum (name : String) (enum_ : REnum) : String :=
  let params := format_generic_params enum_.generics.params
  let where_bounds := format_where_bounds enum_.generics.where_predicates
  "enum " ++ name ++ params ++ " " ++ where_bounds ++ " \x7b .. \x7d"

/-- `rustdoc_types::Impl` restricted to the fields this program reads. -/
structure RImpl where
  is_unsafe : Bool
  generics : Generics
  trait_ : Option RPath
  for_ : RustType
  items : List RId
  synthetic : Bool
  blanket_impl : Option RustType

/-- `format_impl` from `src/lib.rs`.  Note the inverted `is_unsafe` match of
the source (`true => ""`, `false => "unsafe "`), reproduced here, and the
separator spaces of its format string. -/
def format_impl (impl_ : RImpl) : String :=
  let is_unsafe := if impl_.is_unsafe then "" else "unsafe "
  let trait_ := match impl_.trait_ with
    | some t => t.name ++ " for "
    | none => ""
  let ty := format_type impl_.for_
  let params := format_generic_params impl_.generics.params
  let where_bounds := format_where_bounds impl_.generics.where_predicates
  is_unsafe ++ " impl" ++ params ++ " " ++ trait_ ++ " " ++ ty ++ " " ++ where_bounds ++
    " \x7b\x7d"

/-- `rustdoc_types::Module` restricted to the fields `src/lib.rs` reads;
named `RModule` to avoid the Mathlib `Module`. -/
structure RModule where
  items : List RId

/-- `rustdoc_types::Import` restricted to the fields this program reads:
only the optional forwarding target (`import.id?` in the source). -/
structure RImport where
  id : Option RId

/-- `rustdoc_types::ItemEnum` restricted to the variants this program
distinguishes; `other` stands for every remaining rustdoc item kind (all of
them fall into the resolvers' wildcard arms). -/
inductive ItemEnum where
  | module (m : RModule) : ItemEnum
  | trait_ (t : RTrait) : ItemEnum
  | struct_ (s : RStruct) : ItemEnum
  | enum_ (e : REnum) : ItemEnum
  | function (f : RFunction) : ItemEnum
  | impl_ (i : RImpl) : ItemEnum
  | import_ (i : RImport) : ItemEnum
  | other : ItemEnum

/-- `rustdoc_types::Item` restricted to the fields this program reads. -/
structure Item where
  name : Option String
  attrs : List String
  inner : ItemEnum

/-- `Database` from `src/database.rs`.  The rustdoc `index` and `paths`
hash maps are modelled as association lists; `paths` stores the path
segments of each `ItemSummary` (joined with `"::"` by `find_path`). -/
structure Database where
  index : List (RId × Item)
  paths : List (RId × List String)

/-- `Database::find_item` from `src/database.rs`. -/
def Database.find_item (db : Database) (id : RId) : Option Item :=
  db.index.lookup id

/-- `Database::find_path` from `src/database.rs` (`summary.path.join("::")`). -/
def Database.find_path (db : Database) (id : RId) : Option String :=
  (db.paths.lookup id).map (String.intercalate "::")

/-- Result of one fueled run of a `find_*` alias chase.  `diverge` is
produced exactly when the chase is still following `Import` links after
`fuel` steps: the source recursion has no other way to stop, so an input on
which every fuel diverges is an input on which the Rust code loops forever. -/
inductive FindRes (α : Type) where
  | diverge : FindRes α
  | miss : FindRes α
  | found (a : α) : FindRes α
deriving DecidableEq

/-- The shared shape of the inner `find_trait`/`find_function`/`find_struct`/
`find_enum`/`find_impl` closures of `src/database.rs`: look the id up, return
the definition if the selector matches (first match arm), recurse through an
`Import` alias (second arm), otherwise report a miss (wildcard arm).  The
five resolvers are this function applied to five selectors, each of which is
`none` on `Import`, so checking the selector first is exactly the source's
arm order.  The source recursion is unguarded, hence the explicit fuel. -/
def find_def_chase {α : Type} (sel : ItemEnum → Option α) (db : Database) :
    Nat → RId → FindRes (Item × α)
  | 0, _ => .diverge
  | fuel + 1, id =>
    match db.find_item id with
    | none => .miss
    | some item =>
      match sel item.inner with
      | some v => .found (item, v)
      | none =>
        match item.inner with
        | .import_ imp =>
          match imp.id with
          | some next => find_def_chase sel db fuel next
          | none => .miss
        | _ => .miss

/-- Selector of the `ItemEnum::Trait` arm. -/
def selTrait : ItemEnum → Option RTrait
  | .trait_ t => some t
  | _ => none

/-- Selector of the `ItemEnum::Function` arm. -/
def selFunction : ItemEnum → Option RFunction
  | .function f => some f
  | _ => none

/-- Selector of the `ItemEnum::Struct` arm. -/
def selStruct : ItemEnum → Option RStruct
  | .struct_ s => some s
  | _ => none

/-- Selector of the `ItemEnum::Enum` arm. -/
def selEnum : ItemEnum → Option REnum
  | .enum_ e => some e
  | _ => none

/-- Selector of the `ItemEnum::Impl` arm. -/
def selImpl : ItemEnum → Option RImpl
  | .impl_ i => some i
  | _ => none

/-- The inner `find_trait` closure of `Database::find_traits`. -/
def find_trait (db : Database) (fuel : Nat) (id : RId) : FindRes (Item × RTrait) :=
  find_def_chase selTrait db fuel id

/-- The inner `find_function` closure of `Database::find_functions`. -/
def find_function (db : Database) (fuel : Nat) (id : RId) : FindRes (Item × RFunction) :=
  find_def_chase selFunction db fuel id

/-- The inner `find_struct` closure of `Database::find_structs`. -/
def find_struct (db : Database) (fuel : Nat) (id : RId) : FindRes (Item × RStruct) :=
  find_def_chase selStruct db fuel id

/-- The inner `find_enum` closure of `Database::find_enums`. -/
def find_enum (db : Database) (fuel : Nat) (id : RId) : FindRes (Item × REnum) :=
  find_def_chase selEnum db fuel id

/-- The inner `find_impl` closure of `Database::find_impls`. -/
def find_impl (db : Database) (fuel : Nat) (id : RId) : FindRes (Item × RImpl) :=
  find_def_chase selImpl db fuel id

/-- Keep only successful resolutions (the `filter_map` of the source). -/
def FindRes.toOption {α : Type} : FindRes α → Option α
  | .found a => some a
  | _ => none

/-- `Database::find_traits` from `src/database.rs` (silent-skip policy). -/
def find_traits (db : Database) (fuel : Nat) (ids : List RId) : List (Item × RTrait) :=
  ids.filterMap (fun id => (find_trait db fuel id).toOption)

/-- `Database::find_functions` from `src/database.rs`. -/
def find_functions (db : Database) (fuel : Nat) (ids : List RId) : List (Item × RFunction) :=
  ids.filterMap (fun id => (find_function db fuel id).toOption)

/-- `Database::find_structs` from `src/database.rs`. -/
def find_structs (db : Database) (fuel : Nat) (ids : List RId) : List (Item × RStruct) :=
  ids.filterMap (fun id => (find_struct db fuel id).toOption)

/-- `Database::find_enums` from `src/database.rs`. -/
def find_enums (db : Database) (fuel : Nat) (ids : List RId) : List (Item × REnum) :=
  ids.filterMap (fun id => (find_enum db fuel id).toOption)

/-- `Database::find_impls` from `src/database.rs`. -/
def find_impls (db : Database) (fuel : Nat) (ids : List RId) : List (Item × RImpl) :=
  ids.filterMap (fun id => (find_impl db fuel id).toOption)

/-- The denormalized output record.  `src/lib.rs` declares five structurally
identical structs `Trait`/`Struct`/`Enum`/`Function`/`Impl` with fields in
this exact order (`kind`, `name`, `path`, `decl`, `has_generics`,
`stability`, `fn_count`), which is also the lexicographic order of their
derived `Ord`; one Lean structure stands for all five. -/
structure FlatRecord where
  kind : String
  name : String
  path : String
  decl : String
  has_generics : Bool
  stability : Stability
  fn_count : Nat
deriving DecidableEq

/-- `Crate` from `src/lib.rs`: the five output collections. -/
structure Crate where
  traits : List FlatRecord
  structs : List FlatRecord
  enums : List FlatRecord
  impls : List FlatRecord
  functions : List FlatRecord
deriving DecidableEq

/-- The empty `Crate` (`Crate::default()` / the initializer of `from_str`). -/
def Crate.empty : Crate := ⟨[], [], [], [], []⟩

/-- `Crate::append` from `src/lib.rs`, modelled functionally: the result is
`(new self, new other)`.  The source moves `traits`, `structs`, `enums` and
`functions` out of `other` but never touches either side's `impls`. -/
def Crate.append (self other : Crate) : Crate × Crate :=
  ({ self with
      traits := self.traits ++ other.traits
      structs := self.structs ++ other.structs
      enums := self.enums ++ other.enums
      functions := self.functions ++ other.functions },
   { other with traits := [], structs := [], enums := [], functions := [] })

/-- The record pushed for one function by `Crate::count_functions` of
`src/lib.rs` (`item.name.unwrap()` is modelled with a default, as the items
reaching it always carry a name). -/
def mk_function_record (path_name : String) (parent_has_generics : Bool)
    (item : Item) (fn_ : RFunction) : FlatRecord :=
  let function_name := item.name.getD ""
  { kind := "function"
    name := function_name
    path := path_name
    decl := format_function function_name fn_
    has_generics := contains_generics fn_.generics || parent_has_generics
    stability := parse_stability item.attrs
    fn_count := 0 }

/-- `Crate::count_functions` from `src/lib.rs`: push one record per resolved
function and return the records together with their number (the source
increments `count` once per resolved function). -/
def count_functions (db : Database) (fuel : Nat) (items : List RId)
    (path_name : String) (parent_has_generics : Bool) : List FlatRecord × Nat :=
  let found := find_functions db fuel items
  (found.map (fun p => mk_function_record path_name parent_has_generics p.1 p.2),
   found.length)

/-- Loop body of `Crate::count_inherent_impls` from `src/lib.rs`: trait
impls, synthetic impls and blanket impls are skipped; the member functions of
the remaining (inherent) impls are flattened with the impl's own generics
flag and counted. -/
def count_inherent_impls_go (db : Database) (fuel : Nat) (path_name : String) :
    List (Item × RImpl) → List FlatRecord × Nat
  | [] => ([], 0)
  | (_, impl_) :: rest =>
    let r := count_inherent_impls_go db fuel path_name rest
    if impl_.trait_.isSome || impl_.synthetic || impl_.blanket_impl.isSome then r
    else
      let f := count_functions db fuel impl_.items path_name (contains_generics impl_.generics)
      (f.1 ++ r.1, f.2 + r.2)

/-- `Crate::count_inherent_impls` from `src/lib.rs`. -/
def count_inherent_impls (db : Database) (fuel : Nat) (items : List RId)
    (path_name : String) : List FlatRecord × Nat :=
  count_inherent_impls_go db fuel path_name (find_impls db fuel items)

/-- Loop body of `Crate::parse_trait_impls` from `src/lib.rs`.  Only impls
with a target trait emit a record.  `stability` is a single mutable local of
the source, threaded through the whole loop: a promotion to `Unstable`
(because an enum-valued member of the impl is unstable, or the implemented
trait resolves to an unstable trait) persists for all later impls of the
same call.  An unresolvable trait (`None` arm) leaves it unchanged. -/
def parse_trait_impls_go (db : Database) (fuel : Nat) (path_name : String) :
    List (Item × RImpl) → Stability → List FlatRecord
  | [], _ => []
  | (_, impl_) :: rest, stability =>
    let has_generics := contains_generics impl_.generics
    match impl_.trait_ with
    | some trait_ =>
      let stability1 :=
        if (find_enums db fuel impl_.items).any
            (fun p => parse_stability p.1.attrs == Stability.Unstable)
        then Stability.Unstable else stability
      let stability2 :=
        match (find_traits db fuel [trait_.id]).head? with
        | some tp =>
          if parse_stability tp.1.attrs == Stability.Unstable
          then Stability.Unstable else stability1
        | none => stability1
      { kind := "impl"
        name := trait_.name
        path := path_name
        decl := format_impl impl_
        has_generics := has_generics
        stability := stability2
        fn_count := 0 } :: parse_trait_impls_go db fuel path_name rest stability2
    | none => parse_trait_impls_go db fuel path_name rest stability

/-- `Crate::parse_trait_impls` from `src/lib.rs`, returning the list of
records the source pushes onto `self.impls`. -/
def parse_trait_impls (db : Database) (fuel : Nat) (items : List RId)
    (path_name : String) (stability : Stability) : List FlatRecord :=
  parse_trait_impls_go db fuel path_name (find_impls db fuel items) stability

/-- Body of the `Crate::parse_traits` loop of `src/lib.rs` for one resolved
trait: flatten the trait's member functions (pushed before the trait record,
with the trait's generics flag inherited), then push the trait record. -/
def parse_traits_step (db : Database) (fuel : Nat) (path_name : String)
    (c : Crate) (p : Item × RTrait) : Crate :=
  let item := p.1
  let trait_ := p.2
  let trait_name := item.name.getD ""
  let decl := format_trait trait_name trait_
  let has_generics := contains_generics trait_.generics
  let fn_path := path_name ++ "::" ++ trait_name
  let fns := count_functions db fuel trait_.items fn_path has_generics
  let stability := parse_stability item.attrs
  { c with
      functions := c.functions ++ fns.1
      traits := c.traits ++
        [{ kind := "trait", name := trait_name, path := path_name, decl := decl,
           has_generics := has_generics, stability := stability, fn_count := fns.2 }] }

/-- `Crate::parse_traits` from `src/lib.rs`. -/
def parse_traits (db : Database) (fuel : Nat) (items : List RId)
    (path_name : String) (c : Crate) : Crate :=
  (find_traits db fuel items).foldl (parse_traits_step db fuel path_name) c

/-- Body of the `Crate::parse_structs` loop of `src/lib.rs` for one resolved
struct: count inherent-impl methods (their records are pushed to
`functions`), emit the trait-impl records, then push the struct record (the
source recomputes `parse_stability` for the record field; both computations
are equal). -/
def parse_structs_step (db : Database) (fuel : Nat) (path_name : String)
    (c : Crate) (p : Item × RStruct) : Crate :=
  let item := p.1
  let strukt := p.2
  let strukt_name := item.name.getD ""
  let decl := format_struct strukt_name strukt
  let has_generics := contains_generics strukt.generics
  let strukt_path := path_name ++ "::" ++ strukt_name
  let fns := count_inherent_impls db fuel strukt.impls strukt_path
  let stability := parse_stability item.attrs
  let implRecs := parse_trait_impls db fuel strukt.impls path_name stability
  { c with
      functions := c.functions ++ fns.1
      impls := c.impls ++ implRecs
      structs := c.structs ++
        [{ kind := "struct", name := strukt_name, path := path_name, decl := decl,
           has_generics := has_generics, stability := parse_stability item.attrs,
           fn_count := fns.2 }] }

/-- `Crate::parse_structs` from `src/lib.rs`. -/
def parse_structs (db : Database) (fuel : Nat) (items : List RId)
    (path_name : String) (c : Crate) : Crate :=
  (find_structs db fuel items).foldl (parse_structs_step db fuel path_name) c

/-- Body of the `Crate::parse_enums` loop of `src/lib.rs` for one resolved
enum (same shape as for structs). -/
def parse_enums_step (db : Database) (fuel : Nat) (path_name : String)
    (c : Crate) (p : Item × REnum) : Crate :=
  let item := p.1
  let enum_ := p.2
  let enum_name := item.name.getD ""
  let decl := format_enum enum_name enum_
  let enum_path := path_name ++ "::" ++ enum_name
  let fns := count_inherent_impls db fuel enum_.impls enum_path
  let stability := parse_stability item.attrs
  let implRecs := parse_trait_impls db fuel enum_.impls path_name stability
  { c with
      functions := c.functions ++ fns.1
      impls := c.impls ++ implRecs
      enums := c.enums ++
        [{ kind := "enum", name := enum_name, path := path_name, decl := decl,
           has_generics := contains_generics enum_.generics, stability := stability,
           fn_count := fns.2 }] }

/-- `Crate::parse_enums` from `src/lib.rs`. -/
def parse_enums (db : Database) (fuel : Nat) (items : List RId)
    (path_name : String) (c : Crate) : Crate :=
  (find_enums db fuel items).foldl (parse_enums_step db fuel path_name) c

/-- One iteration of the module loop of `Crate::from_str` in `src/lib.rs`:
traits, module-level functions (with no inherited generics), structs, enums,
in the source's call order. -/
def parse_module (db : Database) (fuel : Nat) (path_name : String)
    (items : List RId) (c : Crate) : Crate :=
  let c1 := parse_traits db fuel items path_name c
  let fns := count_functions db fuel items path_name false
  let c2 := { c1 with functions := c1.functions ++ fns.1 }
  let c3 := parse_structs db fuel items path_name c2
  parse_enums db fuel items path_name c3

/-- Three-way comparison on `Nat` (models `usize`/scalar `Ord::cmp`). -/
def nat_cmp (a b : Nat) : Ordering :=
  if a < b then .lt else if b < a then .gt else .eq

/-- Three-way comparison on characters by codepoint (models the byte-wise
`Ord` of Rust strings, with which it agrees on the ASCII data used here). -/
def char_cmp (a b : Char) : Ordering :=
  nat_cmp a.toNat b.toNat

/-- Lexicographic three-way comparison on lists, given one on elements. -/
def list_cmp {α : Type} (c : α → α → Ordering) : List α → List α → Ordering
  | [], [] => .eq
  | [], _ :: _ => .lt
  | _ :: _, [] => .gt
  | a :: as_, b :: bs =>
    match c a b with
    | .eq => list_cmp c as_ bs
    | o => o

/-- Three-way comparison on strings (Rust `Ord` for `String`). -/
def str_cmp (a b : String) : Ordering :=
  list_cmp char_cmp a.toList b.toList

/-- Three-way comparison on `Bool` (Rust `Ord`: `false < true`). -/
def bool_cmp (a b : Bool) : Ordering :=
  nat_cmp (cond a 1 0) (cond b 1 0)

/-- Rank of a `Stability` value in its derived `Ord` (declaration order). -/
def Stability.rank : Stability → Nat
  | .Stable => 0
  | .Unstable => 1

/-- Derived `Ord` of `Stability`. -/
def stab_cmp (a b : Stability) : Ordering :=
  nat_cmp a.rank b.rank

/-- Lexicographic combination of two comparators on a pair (how a derived
`Ord` chains its fields). -/
def pcmp {α β : Type} (c : α → α → Ordering) (d : β → β → Ordering)
    (x y : α × β) : Ordering :=
  (c x.1 y.1).then (d x.2 y.2)

/-- The full field tuple of a `FlatRecord`, in declaration order. -/
def FlatRecord.key (r : FlatRecord) :
    String × String × String × String × Bool × Stability × Nat :=
  (r.kind, r.name, r.path, r.decl, r.has_generics, r.stability, r.fn_count)

/-- The derived `Ord` of the five record structs of `src/lib.rs`:
lexicographic in field declaration order `kind`, `name`, `path`, `decl`,
`has_generics`, `stability`, `fn_count`. -/
def record_cmp (r s : FlatRecord) : Ordering :=
  pcmp str_cmp (pcmp str_cmp (pcmp str_cmp (pcmp str_cmp (pcmp bool_cmp
    (pcmp stab_cmp nat_cmp))))) r.key s.key

/-- The non-strict order of `record_cmp` (Rust `a <= b`). -/
def rle (r s : FlatRecord) : Prop := record_cmp r s ≠ .gt

/-- The strict order of `record_cmp` (Rust `a < b`). -/
def rlt (r s : FlatRecord) : Prop := record_cmp r s = .lt

instance : DecidableRel rle := fun r s => by unfold rle; infer_instance

instance : DecidableRel rlt := fun r s => by unfold rlt; infer_instance

/-- The key the specification claims the collections are ordered by:
lexicographic on `(kind, path, name)` only.  This definition follows the
spec's words, for comparison against `record_cmp` (which follows the code). -/
def spec_cmp (r s : FlatRecord) : Ordering :=
  pcmp str_cmp (pcmp str_cmp str_cmp) (r.kind, r.path, r.name) (s.kind, s.path, s.name)

/-- Non-strict order of the spec's claimed `(kind, path, name)` key. -/
def spec_le (r s : FlatRecord) : Prop := spec_cmp r s ≠ .gt

instance : DecidableRel spec_le := fun r s => by unfold spec_le; infer_instance

/-- `Vec::sort` on a record vector: a stable sort by the derived `Ord`.  Any
sort produces the same sorted sequence up to ties; insertion sort is used
because it is structurally recursive (hence kernel-computable) and stable. -/
def sort_records (l : List FlatRecord) : List FlatRecord :=
  List.insertionSort rle l

/-- Inner loop of `Vec::dedup`: `a` is the last element kept; a following
element equal to it is dropped, a different one becomes the new kept
element.  This removes exactly the consecutive duplicates. -/
def dedup_go {α : Type} [DecidableEq α] (a : α) : List α → List α
  | [] => [a]
  | b :: l => if a = b then dedup_go a l else a :: dedup_go b l

/-- `Vec::dedup`: remove consecutive equal elements, keeping the first of
each run. -/
def rust_dedup {α : Type} [DecidableEq α] : List α → List α
  | [] => []
  | a :: l => dedup_go a l

/-- The sort-then-dedup epilogue of `Crate::from_str` (`src/lib.rs` lines
57-66), applied to each of the five collections. -/
def Crate.finalize (c : Crate) : Crate :=
  { traits := rust_dedup (sort_records c.traits)
    structs := rust_dedup (sort_records c.structs)
    enums := rust_dedup (sort_records c.enums)
    impls := rust_dedup (sort_records c.impls)
    functions := rust_dedup (sort_records c.functions) }

/-- Order on the module list of `Database::modules` (sorted by path). -/
def module_le (a b : String × RModule) : Prop := str_cmp a.1 b.1 ≠ .gt

instance : DecidableRel module_le := fun a b => by unfold module_le; infer_instance

/-- `Database::modules` from `src/database.rs`: collect every indexed module
that has a path, sorted by path (the hash-map iteration order the source
starts from is modelled by the association-list order). -/
def Database.modules (db : Database) : List (String × RModule) :=
  List.insertionSort module_le
    (db.index.filterMap (fun p =>
      match p.2.inner with
      | .module m => (db.find_path p.1).map (fun path => (path, m))
      | _ => none))

/-- `Crate::from_str` from `src/lib.rs`, starting after the out-of-scope
JSON deserialization: walk the modules in path order, accumulate records,
then sort and dedup each collection. -/
def Crate.from_db (db : Database) (fuel : Nat) : Crate :=
  Crate.finalize
    ((db.modules).foldl (fun c pm => parse_module db fuel pm.1 pm.2.items c) Crate.empty)

/-- The fields of `rustdoc_denormalize::Item` that the classification pass
(`src/analyze/`) reads.  The `Item` struct declared in `src/item.rs` belongs
to a revision without `target_trait`; the field set here is the one the
analyze code actually uses (`path`, `target_trait`, `is_const`, `is_async`,
`stability`). -/
structure AnalyzeItem where
  path : String
  target_trait : String
  is_const : Bool
  is_async : Bool
  stability : Stability

/-- `should_exclude_path` from `src/analyze/mod.rs`: a fold over the
configured prefixes, sticky once true, using prefix matching
(`str::starts_with`). -/
def should_exclude_path (target : String) (exclude_paths : List String) : Bool :=
  exclude_paths.foldl
    (fun should_exclude path =>
      if should_exclude then true
      else
        match str_starts_with target path with
        | true => true
        | false => false)
    false

/-- The exclusion test of one item inside `count_items` of
`src/analyze/mod.rs` (the `else if` chain of its second `filter`: path
prefix, then associated-trait path prefix, then the caller's closure; each
excluded item increments the shared counter exactly once). -/
def count_items_excluded (exclude_paths : List String)
    (should_exclude : AnalyzeItem → Bool) (item : AnalyzeItem) : Bool :=
  if should_exclude_path item.path exclude_paths then true
  else if should_exclude_path item.target_trait exclude_paths then true
  else if should_exclude item then true
  else false

/-- `count_items` from `src/analyze/mod.rs`: drop non-stable items, count
the excluded ones separately, and count the remaining items matching
`count_current`.  Returns `(matchedCount, excludedCount)`. -/
def count_items (items : List AnalyzeItem) (exclude_paths : List String)
    (should_exclude : AnalyzeItem → Bool) (count_current : AnalyzeItem → Bool) :
    Nat × Nat :=
  let stable := items.filter (fun it => it.stability.is_stable)
  let kept := stable.filter (fun it => !(count_items_excluded exclude_paths should_exclude it))
  ((kept.filter count_current).length,
   stable.countP (count_items_excluded exclude_paths should_exclude))

/-- `EXCLUDE_PATHS` from `src/analyze/const_.rs`. -/
def EXCLUDE_PATHS : List String := ["std::os", "std::fs", "std::net", "std::process"]

/-- `should_exclude` from `src/analyze/const_.rs`: a fold over
`EXCLUDE_PATHS`, sticky once true, using substring matching
(`str::contains`). -/
def const_should_exclude (target : String) : Bool :=
  EXCLUDE_PATHS.foldl
    (fun should_exclude pat =>
      if should_exclude then true
      else
        match str_contains target pat with
        | true => true
        | false => false)
    false

/-- `count_const_items` from `src/analyze/const_.rs`: drop non-stable items,
count items excluded by `should_exclude` on their path, and count the
remaining `is_const` items.  Returns `(matchedCount, excludedCount)`. -/
def count_const_items (items : List AnalyzeItem) : Nat × Nat :=
  let stable := items.filter (fun it => it.stability.is_stable)
  let kept := stable.filter (fun it => !(const_should_exclude it.path))
  ((kept.filter (fun it => it.is_const)).length,
   stable.countP (fun it => const_should_exclude it.path))

/-- `format_type` from `src/main.rs` (older revision): only generic
parameters render; everything else falls to the debug placeholder. -/
def main_format_type : RustType → String
  | .generic generic => generic
  | ty => "<cannot format type: " ++ debug_type ty ++ ">"

/-- `format_term` from `src/main.rs`. -/
def main_format_term : RTerm RustType → String
  | .type ty => main_format_type ty
  | .constant => "todo: format constants"

/-- The rendering of one where-predicate inside `format_where_bounds` of
`src/main.rs`.  The region-predicate arm of the source is a literal
`todo!()` panic, modelled as `none`; the other arms always succeed. -/
def main_format_where_pred : WherePredicate → Option String
  | .boundPredicate type_ bounds =>
    some (main_format_type type_ ++ ": " ++ format_generic_bounds bounds)
  | .regionPredicate _ _ => none
  | .eqPredicate lhs rhs => some (main_format_type lhs ++ " = " ++ main_format_term rhs)

/-- Option-propagating map: the loop of `format_where_bounds` in
`src/main.rs` builds `out` entry by entry and a `todo!()` panic (modelled
`none`) aborts the whole call. -/
def option_mapM {α β : Type} (f : α → Option β) : List α → Option (List β)
  | [] => some []
  | x :: xs => (f x).bind (fun b => (option_mapM f xs).map (fun bs => b :: bs))

/-- `format_where_bounds` from `src/main.rs`: like the `src/lib.rs` version
but joined with `"where "` (no leading space) and panicking (`none`) as soon
as a region predicate is encountered. -/
def main_format_where_bounds (predicates : List WherePredicate) : Option String :=
  (option_mapM main_format_where_pred predicates).map (fun out =>
    match out.length with
    | 0 => ""
    | _ + 1 => "where " ++ String.intercalate ", " out)

/-- A lawful three-way comparator: swapping arguments swaps the result,
strict-below is transitive, and `eq` reflects equality. -/
structure LawCmp {α : Type} (c : α → α → Ordering) : Prop where
  swap_eq : ∀ a b, c a b = (c b a).swap
  lt_trans : ∀ a b d, c a b = .lt → c b d = .lt → c a d = .lt
  eq_iff : ∀ a b, c a b = .eq ↔ a = b

/-- The concrete function of claim C2: `const`, not `unsafe`, not `async`,
no generics, one parameter `x: i32`, return type `i32`, no body. -/
def c2_function : RFunction :=
  { decl := { inputs := [("x", RustType.primitive "i32")],
              output := some (RustType.primitive "i32") }
    generics := { params := [], where_predicates := [] }
    header := { const_ := true, unsafe_ := false, async_ := false }
    has_body := false }

/-- The two concrete crates of claim C5: each holds a single impl record. -/
def c5_a : Crate :=
  { traits := [], structs := [], enums := [],
    impls := [⟨"impl", "A", "p", "da", false, Stability.Stable, 0⟩], functions := [] }

/-- Second concrete crate of claim C5. -/
def c5_b : Crate :=
  { traits := [], structs := [], enums := [],
    impls := [⟨"impl", "B", "q", "db", false, Stability.Stable, 0⟩], functions := [] }

/-- The concrete implementation of claim C6: `impl Eq for Point`, not
unsafe, no generics, no members. -/
def c6_impl : RImpl :=
  { is_unsafe := false
    generics := { params := [], where_predicates := [] }
    trait_ := some { name := "Eq", id := "idEq" }
    for_ := RustType.resolvedPath { name := "Point", id := "idPoint" }
    items := []
    synthetic := false
    blanket_impl := none }

/-- A database exposing `c6_impl` under id `i1` (the trait `Eq` itself is
not in the graph, so its stability lookup resolves to nothing). -/
def c6_db : Database :=
  { index := [("i1", { name := some "impl", attrs := [], inner := ItemEnum.impl_ c6_impl })]
    paths := [] }

/-- The failing input of claim C1: two re-export aliases forming a cycle
(`a` forwards to `b`, `b` forwards to `a`). -/
def cycle_db : Database :=
  { index :=
      [("a", { name := none, attrs := [], inner := ItemEnum.import_ { id := some "b" } }),
       ("b", { name := none, attrs := [], inner := ItemEnum.import_ { id := some "a" } })]
    paths := [] }

/-- An acyclic alias chain of length 2 ending in a trait definition:
`c1` forwards to `c2`, `c2` forwards to `c3`, `c3` is a trait. -/
def chain_trait : RTrait :=
  { is_auto := false, is_unsafe := false, items := [],
    generics := { params := [], where_predicates := [] }, bounds := [] }

/-- The item holding `chain_trait`. -/
def chain_item : Item :=
  { name := some "T", attrs := [], inner := ItemEnum.trait_ chain_trait }

/-- Database holding the acyclic chain. -/
def chain_db : Database :=
  { index :=
      [("c1", { name := none, attrs := [], inner := ItemEnum.import_ { id := some "c2" } }),
       ("c2", { name := none, attrs := [], inner := ItemEnum.import_ { id := some "c3" } }),
       ("c3", chain_item)]
    paths := [] }

/-- The empty trait used by the claim C4 counterexample. -/
def c4_trait : RTrait :=
  { is_auto := false, is_unsafe := false, items := [],
    generics := { params := [], where_predicates := [] }, bounds := [] }

/-- The failing input of claim C4: module `m1` holds a trait named `b`,
module `m2` holds a trait named `a`.  Sorting by the derived order compares
`name` before `path`, so the exposed list is `[a@m2, b@m1]`, which is not
sorted by `(kind, path, name)` (that would demand `b@m1` first). -/
def c4_db : Database :=
  { index :=
      [("m1", { name := none, attrs := [], inner := ItemEnum.module { items := ["t1"] } }),
       ("m2", { name := none, attrs := [], inner := ItemEnum.module { items := ["t2"] } }),
       ("t1", { name := some "b", attrs := [], inner := ItemEnum.trait_ c4_trait }),
       ("t2", { name := some "a", attrs := [], inner := ItemEnum.trait_ c4_trait })]
    paths := [("m1", ["m1"]), ("m2", ["m2"])] }

/-- The per-implementation promotion condition of `parse_trait_impls`: some
enum-valued member of the impl is unstable, or the implemented trait
resolves (head of `find_traits [trait_.id]`) to an unstable trait.  An
unresolvable trait contributes nothing. -/
def impl_promotes (db : Database) (fuel : Nat) (impl_ : RImpl) (trait_ : RPath) : Bool :=
  ((find_enums db fuel impl_.items).any
      (fun p => parse_stability p.1.attrs == Stability.Unstable)) ||
    (match (find_traits db fuel [trait_.id]).head? with
     | some tp => parse_stability tp.1.attrs == Stability.Unstable
     | none => false)

/-- The impls that carry a target trait (the ones emitting records),
paired with that trait reference, in list order. -/
def trait_impls_of (l : List (Item × RImpl)) : List (RImpl × RPath) :=
  l.filterMap (fun p => p.2.trait_.map (fun t => (p.2, t)))

/-- The unstable trait of the claim C3 counterexample (no attributes, hence
`Unstable`); also reused, with a `#[stable]` attribute on its item, as the
stable trait. -/
def c3_trait : RTrait :=
  { is_auto := false, is_unsafe := false, items := [],
    generics := { params := [], where_predicates := [] }, bounds := [] }

/-- First impl of the C3 counterexample: implements the unstable trait `TU`. -/
def c3_impl1 : RImpl :=
  { is_unsafe := false, generics := { params := [], where_predicates := [] },
    trait_ := some { name := "TU", id := "tU" },
    for_ := RustType.primitive "P", items := [], synthetic := false, blanket_impl := none }

/-- Second impl of the C3 counterexample: implements the stable trait `TS`
and contains nothing unstable of its own. -/
def c3_impl2 : RImpl :=
  { is_unsafe := false, generics := { params := [], where_predicates := [] },
    trait_ := some { name := "TS", id := "tS" },
    for_ := RustType.primitive "P", items := [], synthetic := false, blanket_impl := none }

/-- The failing input of claim C3: a stable owner with two trait impls, the
first of an unstable trait, the second of a stable one. -/
def c3_db : Database :=
  { index :=
      [("tU", { name := some "TU", attrs := [], inner := ItemEnum.trait_ c3_trait }),
       ("tS", { name := some "TS", attrs := ["#[stable]"], inner := ItemEnum.trait_ c3_trait }),
       ("i1", { name := none, attrs := [], inner := ItemEnum.impl_ c3_impl1 }),
       ("i2", { name := none, attrs := [], inner := ItemEnum.impl_ c3_impl2 })]
    paths := [] }

theorem then_lt_iff (o p : Ordering) :
    o.then p = .lt ↔ o = .lt ∨ (o = .eq ∧ p = .lt) := by
  cases o <;> simp [Ordering.then]

theorem then_eq_iff (o p : Ordering) :
    o.then p = .eq ↔ o = .eq ∧ p = .eq := by
  cases o <;> simp [Ordering.then]

theorem ordering_swap_then (o p : Ordering) : (o.then p).swap = o.swap.then p.swap := by
  cases o <;> rfl

theorem lawCmp_nat : LawCmp nat_cmp := by
  constructor
  · intro a b
    unfold nat_cmp
    rcases Nat.lt_trichotomy a b with h | h | h
    · simp [h, Nat.lt_asymm h, Ordering.swap]
    · simp [h, Nat.lt_irrefl, Ordering.swap]
    · simp [h, Nat.lt_asymm h, Ordering.swap]
  · intro a b d hab hbd
    unfold nat_cmp at *
    have h1 : a < b := by split_ifs at hab <;> simp_all
    have h2 : b < d := by split_ifs at hbd <;> simp_all
    simp [Nat.lt_trans h1 h2]
  · intro a b
    unfold nat_cmp
    split_ifs with h1 h2 <;> simp <;> omega

theorem lawCmp_inj {α β : Type} {c : β → β → Ordering} {f : α → β}
    (hc : LawCmp c) (hf : Function.Injective f) :
    LawCmp (fun a b => c (f a) (f b)) := by
  constructor
  · intro a b
    exact hc.swap_eq (f a) (f b)
  · intro a b d
    exact hc.lt_trans (f a) (f b) (f d)
  · intro a b
    rw [hc.eq_iff]
    exact ⟨fun h => hf h, fun h => by rw [h]⟩

theorem lawCmp_pcmp {α β : Type} {c : α → α → Ordering} {d : β → β → Ordering}
    (hc : LawCmp c) (hd : LawCmp d) : LawCmp (pcmp c d) := by
  constructor
  · rintro ⟨a1, a2⟩ ⟨b1, b2⟩
    unfold pcmp
    rw [ordering_swap_then, ← hc.swap_eq, ← hd.swap_eq]
  · rintro ⟨a1, a2⟩ ⟨b1, b2⟩ ⟨e1, e2⟩ hab hbe
    unfold pcmp at *
    rw [then_lt_iff] at hab hbe ⊢
    rcases hab with h | ⟨h, h2⟩
    · rcases hbe with h3 | ⟨h3, h4⟩
      · exact Or.inl (hc.lt_trans _ _ _ h h3)
      · rw [hc.eq_iff] at h3
        subst h3
        exact Or.inl h
    · rw [hc.eq_iff] at h
      subst h
      rcases hbe with h3 | ⟨h3, h4⟩
      · exact Or.inl h3
      · rw [hc.eq_iff] at h3
        subst h3
        exact Or.inr ⟨(hc.eq_iff _ _).mpr rfl, hd.lt_trans _ _ _ h2 h4⟩
  · rintro ⟨a1, a2⟩ ⟨b1, b2⟩
    unfold pcmp
    rw [then_eq_iff, hc.eq_iff, hd.eq_iff]
    simp

theorem list_cmp_cons {α : Type} (c : α → α → Ordering) (x y : α) (xs ys : List α) :
    list_cmp c (x :: xs) (y :: ys) = (c x y).then (list_cmp c xs ys) := by
  cases h : c x y <;> simp [list_cmp, Ordering.then, h]

theorem lawCmp_list {α : Type} {c : α → α → Ordering} (hc : LawCmp c) :
    LawCmp (list_cmp c) := by
  constructor
  · intro a
    induction a with
    | nil => intro b; cases b <;> rfl
    | cons x xs ih =>
      intro b
      cases b with
      | nil => rfl
      | cons y ys =>
        rw [list_cmp_cons, list_cmp_cons, ordering_swap_then, ← hc.swap_eq, ← ih]
  · intro a
    induction a with
    | nil =>
      intro b d hab hbd
      cases b with
      | nil => exact absurd hab (by simp [list_cmp])
      | cons y ys =>
        cases d with
        | nil => exact absurd hbd (by simp [list_cmp])
        | cons z zs => rfl
    | cons x xs ih =>
      intro b d hab hbd
      cases b with
      | nil => exact absurd hab (by simp [list_cmp])
      | cons y ys =>
        cases d with
        | nil => exact absurd hbd (by simp [list_cmp])
        | cons z zs =>
          rw [list_cmp_cons] at hab hbd ⊢
          rw [then_lt_iff] at hab hbd ⊢
          rcases hab with h | ⟨h, h2⟩
          · rcases hbd with h3 | ⟨h3, h4⟩
            · exact Or.inl (hc.lt_trans _ _ _ h h3)
            · rw [hc.eq_iff] at h3
              subst h3
              exact Or.inl h
          · rw [hc.eq_iff] at h
            subst h
            rcases hbd with h3 | ⟨h3, h4⟩
            · exact Or.inl h3
            · rw [hc.eq_iff] at h3
              subst h3
              exact Or.inr ⟨(hc.eq_iff _ _).mpr rfl, ih _ _ h2 h4⟩
  · intro a
    induction a with
    | nil => intro b; cases b <;> simp [list_cmp]
    | cons x xs ih =>
      intro b
      cases b with
      | nil => simp [list_cmp]
      | cons y ys =>
        rw [list_cmp_cons, then_eq_iff, hc.eq_iff, ih]
        simp

theorem char_toNat_inj : Function.Injective Char.toNat := by
  intro a b h
  apply Char.eq_of_val_eq
  apply UInt32.eq_of_val_eq
  apply Fin.eq_of_val_eq
  exact h

theorem lawCmp_char : LawCmp char_cmp := by
  have h := lawCmp_inj lawCmp_nat char_toNat_inj
  exact h

theorem str_toList_inj : Function.Injective String.toList := by
  intro s t h
  cases s with
  | mk a =>
    cases t with
    | mk b =>
      simp [String.toList] at h
      rw [h]

theorem lawCmp_str : LawCmp str_cmp := by
  have h := lawCmp_inj (lawCmp_list lawCmp_char) str_toList_inj
  exact h

theorem bool_rank_inj : Function.Injective (fun b : Bool => cond b 1 0) := by
  intro a b h
  cases a <;> cases b <;> simp_all

theorem lawCmp_bool : LawCmp bool_cmp := by
  have h := lawCmp_inj lawCmp_nat bool_rank_inj
  exact h

theorem stab_rank_inj : Function.Injective Stability.rank := by
  intro a b h
  cases a <;> cases b <;> simp_all [Stability.rank]

theorem lawCmp_stab : LawCmp stab_cmp := by
  have h := lawCmp_inj lawCmp_nat stab_rank_inj
  exact h

theorem flatRecord_key_inj : Function.Injective FlatRecord.key := by
  rintro ⟨k1, n1, p1, d1, g1, s1, f1⟩ ⟨k2, n2, p2, d2, g2, s2, f2⟩ h
  simp [FlatRecord.key] at h
  obtain ⟨h1, h2, h3, h4, h5, h6, h7⟩ := h
  subst h1
  subst h2
  subst h3
  subst h4
  subst h5
  subst h6
  subst h7
  rfl

theorem lawCmp_record : LawCmp record_cmp := by
  have h := lawCmp_inj
    (lawCmp_pcmp lawCmp_str (lawCmp_pcmp lawCmp_str (lawCmp_pcmp lawCmp_str
      (lawCmp_pcmp lawCmp_str (lawCmp_pcmp lawCmp_bool
        (lawCmp_pcmp lawCmp_stab lawCmp_nat))))))
    flatRecord_key_inj
  exact h

theorem record_cmp_self (r : FlatRecord) : record_cmp r r = .eq :=
  (lawCmp_record.eq_iff r r).mpr rfl

theorem rle_of_rlt {r s : FlatRecord} (h : rlt r s) : rle r s := by
  unfold rle
  unfold rlt at h
  rw [h]
  simp

theorem ne_of_rlt {r s : FlatRecord} (h : rlt r s) : r ≠ s := by
  intro he
  subst he
  unfold rlt at h
  rw [record_cmp_self] at h
  cases h

theorem rlt_of_rle_ne {r s : FlatRecord} (h : rle r s) (hne : r ≠ s) : rlt r s := by
  unfold rle at h
  unfold rlt
  rcases he : record_cmp r s with _ | _ | _
  · rfl
  · exact absurd ((lawCmp_record.eq_iff r s).mp he) hne
  · exact absurd he h

theorem rle_trans {r s t : FlatRecord} (h1 : rle r s) (h2 : rle s t) : rle r t := by
  unfold rle at *
  rcases he1 : record_cmp r s with _ | _ | _
  · rcases he2 : record_cmp s t with _ | _ | _
    · rw [lawCmp_record.lt_trans _ _ _ he1 he2]
      simp
    · rw [(lawCmp_record.eq_iff s t).mp he2] at he1
      rw [he1]
      simp
    · exact absurd he2 h2
  · rw [(lawCmp_record.eq_iff r s).mp he1]
    exact h2
  · exact absurd he1 h1

theorem rle_total (r s : FlatRecord) : rle r s ∨ rle s r := by
  unfold rle
  rcases he : record_cmp r s with _ | _ | _
  · left
    simp
  · left
    simp
  · right
    have := lawCmp_record.swap_eq s r
    rw [he] at this
    rw [this]
    simp [Ordering.swap]

@[instance] theorem rle_isTrans : IsTrans FlatRecord rle := ⟨fun _ _ _ => rle_trans⟩

@[instance] theorem rle_isTotal : IsTotal FlatRecord rle := ⟨rle_total⟩

@[instance] theorem rlt_isTrans : IsTrans FlatRecord rlt := ⟨fun _ _ _ => lawCmp_record.lt_trans _ _ _⟩

theorem dedup_go_chain :
    ∀ (l : List FlatRecord) (a : FlatRecord), List.Chain rle a l →
      List.Chain' rlt (dedup_go a l) ∧ ∃ t, dedup_go a l = a :: t := by
  intro l
  induction l with
  | nil =>
    intro a _
    exact ⟨by simp [dedup_go], [], rfl⟩
  | cons b rest ih =>
    intro a h
    rw [List.chain_cons] at h
    obtain ⟨hab, hrest⟩ := h
    by_cases heq : a = b
    · subst heq
      simp only [dedup_go, if_pos rfl]
      exact ih a hrest
    · simp only [dedup_go, if_neg heq]
      obtain ⟨hchain, t, ht⟩ := ih b hrest
      refine ⟨?_, _, rfl⟩
      rw [ht]
      rw [List.chain'_cons]
      refine ⟨rlt_of_rle_ne hab heq, ?_⟩
      rw [← ht]
      exact hchain

/-- After `Vec::sort` by the derived order and `Vec::dedup`, a record list is
sorted (non-strictly) by the derived order and free of duplicates. -/
theorem sorted_nodup_dedup_sort (l : List FlatRecord) :
    (rust_dedup (sort_records l)).Pairwise rle ∧ (rust_dedup (sort_records l)).Nodup := by
  have hs : (sort_records l).Pairwise rle := List.sorted_insertionSort rle l
  cases h : sort_records l with
  | nil =>
    simp [rust_dedup]
  | cons a rest =>
    rw [h] at hs
    have hchain : List.Chain rle a rest := List.Pairwise.chain' hs
    obtain ⟨hchain2, t, ht⟩ := dedup_go_chain rest a hchain
    have hpair : (dedup_go a rest).Pairwise rlt := by
      rw [List.chain'_iff_pairwise] at hchain2
      exact hchain2
    simp only [rust_dedup]
    constructor
    · exact hpair.imp (fun h => rle_of_rlt h)
    · exact hpair.imp (fun h => ne_of_rlt h)

theorem parse_stability_foldl (attrs : List String) (init : Stability) :
    attrs.foldl
      (fun val attr => if str_contains attr "#[stable" then Stability.Stable else val)
      init = Stability.Stable ↔
    (init = Stability.Stable ∨ ∃ a ∈ attrs, str_contains a "#[stable" = true) := by
  induction attrs generalizing init with
  | nil => simp
  | cons x xs ih =>
    simp only [List.foldl_cons]
    rw [ih]
    by_cases hx : str_contains x "#[stable" <;> simp [hx] <;> tauto

/-- Claim C10: `parse_stability` classifies an item `Stable` iff some
attribute string contains the substring `"#[stable"`; with no attributes the
result is `Unstable`. -/
theorem parse_stability_stable_iff :
    (∀ attrs, parse_stability attrs = Stability.Stable ↔
      ∃ a ∈ attrs, str_contains a "#[stable" = true) ∧
    parse_stability [] = Stability.Unstable := by
  constructor
  · intro attrs
    unfold parse_stability
    rw [parse_stability_foldl]
    simp
  · rfl

/-- Claim C9: any function named exactly `merge_sort` renders as the fixed
placeholder string, whatever its signature. -/
theorem format_function_merge_sort (fn_ : RFunction) :
    format_function "merge_sort" fn_ =
      "<merge sort is unstable and annoyingly complicated>" := by
  rfl

/-- Claim C2 (code bug): the claimed rendering is
`"const fn name(x: i32) -> i32;"`, but `format_function` emits an `unsafe `
prefix whenever `header.const_` is set (its `is_unsafe` binding tests
`const_`), so this function actually renders
`"const unsafe fn name(x: i32) -> i32;"`. -/
theorem format_function_const_emits_unsafe :
    format_function "name" c2_function = "const unsafe fn name(x: i32) -> i32;" ∧
    format_function "name" c2_function ≠ "const fn name(x: i32) -> i32;" := by
  constructor
  · rfl
  · decide

/-- Claim C5 (code bug): `Crate::append` is documented to move all items of
`other` into `self`, leaving `other` empty, but it never touches `impls`:
after appending, `self` lacks `other`'s impl records and `other` still holds
them. -/
theorem crate_append_drops_impls :
    (Crate.append c5_a c5_b).1.impls ≠ c5_a.impls ++ c5_b.impls ∧
    (Crate.append c5_a c5_b).2 ≠ Crate.empty ∧
    (Crate.append c5_a c5_b).1.impls = c5_a.impls ∧
    (Crate.append c5_a c5_b).2.impls = c5_b.impls ∧
    (Crate.append c5_a c5_b).1.traits = c5_a.traits ++ c5_b.traits ∧
    (Crate.append c5_a c5_b).1.structs = c5_a.structs ++ c5_b.structs ∧
    (Crate.append c5_a c5_b).1.enums = c5_a.enums ++ c5_b.enums ∧
    (Crate.append c5_a c5_b).1.functions = c5_a.functions ++ c5_b.functions := by
  refine ⟨by decide, by decide, rfl, rfl, rfl, rfl, rfl, rfl⟩

/-- Claim C6 counterexample: the implementation does not render as the
claimed `"impl Eq for Point { }"`. -/
theorem format_impl_not_claimed_string :
    format_impl c6_impl ≠ "impl Eq for Point \x7b \x7d" := by
  decide

/-- Claim C6 as amended: because `format_impl` inverts its `is_unsafe` match
(`true` maps to the empty prefix, `false` to `"unsafe "`) and its format
string inserts separator spaces unconditionally, the implementation renders
exactly `"unsafe  impl Eq for  Point  {}"`; the emitted record still has
`fn_count = 0` and keeps the (stable) owner stability since the trait is
unresolvable. -/
theorem format_impl_eq_for_point :
    format_impl c6_impl = "unsafe  impl Eq for  Point  \x7b\x7d" ∧
    parse_trait_impls c6_db 9 ["i1"] "pp" Stability.Stable =
      [{ kind := "impl", name := "Eq", path := "pp",
         decl := "unsafe  impl Eq for  Point  \x7b\x7d",
         has_generics := false, stability := Stability.Stable, fn_count := 0 }] := by
  constructor
  · rfl
  · rfl

/-- Claim C7 counterexample: the `format_where_bounds` copy in `src/main.rs`
hits a literal `todo!()` panic (modelled as `none`) on a region predicate,
so the formatter family is not total/fault-free as claimed. -/
theorem main_format_where_bounds_region_faults :
    main_format_where_bounds [WherePredicate.regionPredicate "a" []] = none := by
  rfl

theorem option_mapM_isSome {α β : Type} (f : α → Option β) (l : List α) :
    (option_mapM f l).isSome = true ↔ ∀ x ∈ l, (f x).isSome = true := by
  induction l with
  | nil => simp [option_mapM]
  | cons x xs ih =>
    simp only [option_mapM]
    cases h : f x with
    | none => simp [h]
    | some b => simp [h, ih]

theorem main_format_where_bounds_isSome_iff (preds : List WherePredicate) :
    (main_format_where_bounds preds).isSome = true ↔
      ∀ p ∈ preds, p.isRegion = false := by
  unfold main_format_where_bounds
  have hm : ∀ (o : Option (List String)) (g : List String → String),
      (o.map g).isSome = o.isSome := by
    intro o g
    cases o <;> rfl
  rw [hm]
  rw [option_mapM_isSome]
  constructor
  · intro h p hp
    have hpp := h p hp
    cases p <;> simp_all [main_format_where_pred, WherePredicate.isRegion]
  · intro h p hp
    have hpp := h p hp
    cases p <;> simp_all [main_format_where_pred, WherePredicate.isRegion]

/-- Claim C7 as amended: the `src/lib.rs` `format_where_bounds` is total and
renders region predicates as the literal placeholder (joined like any other
predicate), while the `src/main.rs` copy succeeds exactly on predicate lists
that contain no region predicate. -/
theorem format_where_bounds_total_placeholder :
    (∀ l bs, format_where_pred (WherePredicate.regionPredicate l bs) =
      "todo: region predicate") ∧
    format_where_bounds [] = "" ∧
    (∀ preds, preds ≠ [] → format_where_bounds preds =
      " where " ++ String.intercalate ", " (preds.map format_where_pred)) ∧
    (∀ preds, (main_format_where_bounds preds).isSome = true ↔
      ∀ p ∈ preds, p.isRegion = false) := by
  refine ⟨fun l bs => rfl, rfl, ?_, main_format_where_bounds_isSome_iff⟩
  intro preds h
  cases preds with
  | nil => exact absurd rfl h
  | cons p ps => rfl

/-- Witness for the hypothesis of `format_where_bounds_total_placeholder`:
instantiated at a singleton region predicate. -/
theorem format_where_bounds_total_placeholder_witness :
    format_where_bounds [WherePredicate.regionPredicate "a" []] =
      " where todo: region predicate" := by
  have h := format_where_bounds_total_placeholder.2.2.1
    [WherePredicate.regionPredicate "a" []] (by simp)
  rw [h]
  rfl

theorem countP_three_split {α : Type} (p q : α → Bool) (l : List α) :
    l.countP (fun a => q a && !p a) + l.countP p + l.countP (fun a => !q a && !p a) =
      l.length := by
  induction l with
  | nil => simp
  | cons x xs ih =>
    by_cases hp : p x
    · simp only [List.countP_cons, hp]
      simp
      omega
    · by_cases hq : q x <;> simp only [List.countP_cons, hp, hq] <;> simp <;> omega

theorem count_items_fst (items : List AnalyzeItem) (ex : List String)
    (se cc : AnalyzeItem → Bool) :
    (count_items items ex se cc).1 =
      (items.filter (fun it => it.stability.is_stable)).countP
        (fun it => cc it && !(count_items_excluded ex se it)) := by
  show (List.filter cc (List.filter (fun it => !count_items_excluded ex se it)
      (List.filter (fun it => it.stability.is_stable) items))).length = _
  rw [← List.countP_eq_length_filter, List.countP_filter]

theorem count_const_items_fst (items : List AnalyzeItem) :
    (count_const_items items).1 =
      (items.filter (fun it => it.stability.is_stable)).countP
        (fun it => it.is_const && !(const_should_exclude it.path)) := by
  show (List.filter (fun it => it.is_const)
      (List.filter (fun it => !const_should_exclude it.path)
        (List.filter (fun it => it.stability.is_stable) items))).length = _
  rw [← List.countP_eq_length_filter, List.countP_filter]

/-- Claim C8: in every classification run (`count_items` of
`src/analyze/mod.rs` and `count_const_items` of `src/analyze/const_.rs`),
non-stable items are dropped first, and the matched, excluded and
counted-but-not-matching items partition the stable set exactly: the three
bucket counts sum to the stable total, with the matched and excluded buckets
equal to the indicated counts. -/
theorem classification_partitions_stable_set :
    (∀ (items : List AnalyzeItem) (ex : List String) (se cc : AnalyzeItem → Bool),
      (count_items items ex se cc).1 =
        (items.filter (fun it => it.stability.is_stable)).countP
          (fun it => cc it && !(count_items_excluded ex se it)) ∧
      (count_items items ex se cc).2 =
        (items.filter (fun it => it.stability.is_stable)).countP
          (count_items_excluded ex se) ∧
      (count_items items ex se cc).1 + (count_items items ex se cc).2 +
        (items.filter (fun it => it.stability.is_stable)).countP
          (fun it => !(cc it) && !(count_items_excluded ex se it)) =
        (items.filter (fun it => it.stability.is_stable)).length) ∧
    (∀ items : List AnalyzeItem,
      (count_const_items items).1 =
        (items.filter (fun it => it.stability.is_stable)).countP
          (fun it => it.is_const && !(const_should_exclude it.path)) ∧
      (count_const_items items).2 =
        (items.filter (fun it => it.stability.is_stable)).countP
          (fun it => const_should_exclude it.path) ∧
      (count_const_items items).1 + (count_const_items items).2 +
        (items.filter (fun it => it.stability.is_stable)).countP
          (fun it => !(it.is_const) && !(const_should_exclude it.path)) =
        (items.filter (fun it => it.stability.is_stable)).length) := by
  constructor
  · intro items ex se cc
    refine ⟨count_items_fst items ex se cc, rfl, ?_⟩
    rw [count_items_fst items ex se cc]
    exact countP_three_split (count_items_excluded ex se) cc
      (items.filter (fun it => it.stability.is_stable))
  · intro items
    refine ⟨count_const_items_fst items, rfl, ?_⟩
    rw [count_const_items_fst items]
    exact countP_three_split (fun it => const_should_exclude it.path)
      (fun it => it.is_const) (items.filter (fun it => it.stability.is_stable))

theorem cycle_chase_diverges {α : Type} (sel : ItemEnum → Option α)
    (h : ∀ imp, sel (ItemEnum.import_ imp) = none) :
    ∀ fuel, find_def_chase sel cycle_db fuel "a" = FindRes.diverge ∧
      find_def_chase sel cycle_db fuel "b" = FindRes.diverge := by
  intro fuel
  induction fuel with
  | zero => exact ⟨rfl, rfl⟩
  | succ n ih =>
    constructor
    · have step : find_def_chase sel cycle_db (n + 1) "a" =
          match sel (ItemEnum.import_ { id := some "b" }) with
          | some v =>
            FindRes.found
              ({ name := none, attrs := [], inner := ItemEnum.import_ { id := some "b" } }, v)
          | none => find_def_chase sel cycle_db n "b" := rfl
      rw [step, h]
      exact ih.2
    · have step : find_def_chase sel cycle_db (n + 1) "b" =
          match sel (ItemEnum.import_ { id := some "a" }) with
          | some v =>
            FindRes.found
              ({ name := none, attrs := [], inner := ItemEnum.import_ { id := some "a" } }, v)
          | none => find_def_chase sel cycle_db n "a" := rfl
      rw [step, h]
      exact ih.1

/-- Claim C1 (code bug): the `find_*` resolvers of `src/database.rs` chase
`Import` aliases with no visited set, so on the two-alias cycle every amount
of fuel leaves the chase still running (`diverge`): the Rust recursion never
terminates, where the claim requires termination with an unresolved result.
An acyclic chain, by contrast, resolves to the definition at its end. -/
theorem resolvers_diverge_on_cycle :
    (∀ fuel,
      find_trait cycle_db fuel "a" = FindRes.diverge ∧
      find_struct cycle_db fuel "a" = FindRes.diverge ∧
      find_enum cycle_db fuel "a" = FindRes.diverge ∧
      find_function cycle_db fuel "a" = FindRes.diverge ∧
      find_impl cycle_db fuel "a" = FindRes.diverge) ∧
    find_trait chain_db 9 "c1" = FindRes.found (chain_item, chain_trait) := by
  constructor
  · intro fuel
    exact ⟨(cycle_chase_diverges selTrait (fun _ => rfl) fuel).1,
      (cycle_chase_diverges selStruct (fun _ => rfl) fuel).1,
      (cycle_chase_diverges selEnum (fun _ => rfl) fuel).1,
      (cycle_chase_diverges selFunction (fun _ => rfl) fuel).1,
      (cycle_chase_diverges selImpl (fun _ => rfl) fuel).1⟩
  · rfl

/-- Claim C4 counterexample: the exposed `traits` collection of the
denormalized crate is not sorted by the claimed `(kind, path, name)` key. -/
theorem from_db_not_sorted_by_spec_key :
    (Crate.from_db c4_db 9).traits =
      [{ kind := "trait", name := "a", path := "m2", decl := "trait a \x7b \x7d",
         has_generics := false, stability := Stability.Unstable, fn_count := 0 },
       { kind := "trait", name := "b", path := "m1", decl := "trait b \x7b \x7d",
         has_generics := false, stability := Stability.Unstable, fn_count := 0 }] ∧
    ¬ (Crate.from_db c4_db 9).traits.Pairwise spec_le := by
  constructor
  · rfl
  · decide

/-- Claim C4 as amended: after denormalization every exposed collection is
deduplicated and sorted ascending — but by the derived lexicographic field
order `(kind, name, path, decl, has_generics, stability, fn_count)`
(`record_cmp`), not by `(kind, path, name)`. -/
theorem from_db_sorted_dedup (db : Database) (fuel : Nat) :
    ((Crate.from_db db fuel).traits.Pairwise rle ∧ (Crate.from_db db fuel).traits.Nodup) ∧
    ((Crate.from_db db fuel).structs.Pairwise rle ∧ (Crate.from_db db fuel).structs.Nodup) ∧
    ((Crate.from_db db fuel).enums.Pairwise rle ∧ (Crate.from_db db fuel).enums.Nodup) ∧
    ((Crate.from_db db fuel).impls.Pairwise rle ∧ (Crate.from_db db fuel).impls.Nodup) ∧
    ((Crate.from_db db fuel).functions.Pairwise rle ∧
      (Crate.from_db db fuel).functions.Nodup) := by
  simp only [Crate.from_db, Crate.finalize]
  exact ⟨sorted_nodup_dedup_sort _, sorted_nodup_dedup_sort _, sorted_nodup_dedup_sort _,
    sorted_nodup_dedup_sort _, sorted_nodup_dedup_sort _⟩

theorem stability2_eq (db : Database) (fuel : Nat) (impl_ : RImpl) (tr : RPath)
    (stab : Stability) :
    (match (find_traits db fuel [tr.id]).head? with
     | some tp =>
       if parse_stability tp.1.attrs == Stability.Unstable then Stability.Unstable
       else
         if (find_enums db fuel impl_.items).any
             (fun p => parse_stability p.1.attrs == Stability.Unstable)
         then Stability.Unstable else stab
     | none =>
       if (find_enums db fuel impl_.items).any
           (fun p => parse_stability p.1.attrs == Stability.Unstable)
       then Stability.Unstable else stab) =
    (if impl_promotes db fuel impl_ tr then Stability.Unstable else stab) := by
  unfold impl_promotes
  cases h2 : (find_traits db fuel [tr.id]).head? with
  | none =>
    by_cases h1 : (find_enums db fuel impl_.items).any
        (fun p => parse_stability p.1.attrs == Stability.Unstable) <;> simp [h1]
  | some tp =>
    by_cases h1 : (find_enums db fuel impl_.items).any
        (fun p => parse_stability p.1.attrs == Stability.Unstable) <;>
      by_cases h3 : parse_stability tp.1.attrs == Stability.Unstable <;>
        simp [h1, h3]

theorem stab_if_zero (b : Bool) (stab : Stability) :
    (if b = true then Stability.Unstable else stab) =
    (if stab = Stability.Unstable ∨ (b || false) = true
     then Stability.Unstable else Stability.Stable) := by
  cases b <;> cases stab <;> simp

theorem stab_if_succ (b c : Bool) (stab : Stability) :
    (if (if b = true then Stability.Unstable else stab) = Stability.Unstable ∨ c = true
     then Stability.Unstable else Stability.Stable) =
    (if stab = Stability.Unstable ∨ (b || c) = true
     then Stability.Unstable else Stability.Stable) := by
  cases b <;> cases c <;> cases stab <;> simp

theorem parse_trait_impls_go_stability (db : Database) (fuel : Nat) (path : String) :
    ∀ (l : List (Item × RImpl)) (stab : Stability) (k : Nat),
      ((parse_trait_impls_go db fuel path l stab).map FlatRecord.stability)[k]? =
        (if k < (trait_impls_of l).length then
          some (if stab = Stability.Unstable ∨
              ((trait_impls_of l).take (k + 1)).any
                (fun q => impl_promotes db fuel q.1 q.2) = true
            then Stability.Unstable else Stability.Stable)
        else none) := by
  intro l
  induction l with
  | nil =>
    intro stab k
    simp [parse_trait_impls_go, trait_impls_of]
  | cons p rest ih =>
    intro stab k
    obtain ⟨item, impl_⟩ := p
    cases himp : impl_.trait_ with
    | none =>
      have hgo : parse_trait_impls_go db fuel path ((item, impl_) :: rest) stab =
          parse_trait_impls_go db fuel path rest stab := by
        simp [parse_trait_impls_go, himp]
      have htr : trait_impls_of ((item, impl_) :: rest) = trait_impls_of rest := by
        simp [trait_impls_of, himp]
      rw [hgo, htr]
      exact ih stab k
    | some tr =>
      have hgo : parse_trait_impls_go db fuel path ((item, impl_) :: rest) stab =
          { kind := "impl", name := tr.name, path := path, decl := format_impl impl_,
            has_generics := contains_generics impl_.generics,
            stability := if impl_promotes db fuel impl_ tr then Stability.Unstable else stab,
            fn_count := 0 } ::
            parse_trait_impls_go db fuel path rest
              (if impl_promotes db fuel impl_ tr then Stability.Unstable else stab) := by
        simp only [parse_trait_impls_go, himp]
        rw [stability2_eq]
      have htr : trait_impls_of ((item, impl_) :: rest) =
          (impl_, tr) :: trait_impls_of rest := by
        simp [trait_impls_of, himp]
      rw [hgo, htr]
      cases k with
      | zero =>
        simp only [List.map_cons, List.getElem?_cons_zero, List.length_cons,
          List.take_succ_cons, List.any_cons]
        rw [if_pos (Nat.succ_pos _)]
        simp only [List.take_zero, List.any_nil]
        exact congrArg some (stab_if_zero _ stab)
      | succ k =>
        simp only [List.map_cons, List.getElem?_cons_succ, List.length_cons,
          List.take_succ_cons, List.any_cons]
        rw [ih]
        by_cases hk : k < (trait_impls_of rest).length
        · rw [if_pos hk, if_pos (Nat.succ_lt_succ hk)]
          exact congrArg some (stab_if_succ _ _ stab)
        · rw [if_neg hk, if_neg (fun h => hk (Nat.lt_of_succ_lt_succ h))]

/-- Claim C3 as amended: for the k-th record emitted by `parse_trait_impls`
(one per impl carrying a target trait, in list order), the stability is
`Unstable` iff the owner stability passed in is `Unstable` or the promotion
condition (`impl_promotes`: unstable enum-valued member, or resolvable
implemented trait that is unstable; an unresolvable trait never promotes)
holds for that implementation **or any earlier one in the same owner's impl
list** — the single mutable `stability` of the source makes promotions
sticky across the loop, so the emitted stability is cumulative, not
per-implementation. -/
theorem parse_trait_impls_stability_cumulative (db : Database) (fuel : Nat)
    (items : List RId) (path : String) (stab : Stability) (k : Nat) :
    ((parse_trait_impls db fuel items path stab).map FlatRecord.stability)[k]? =
      (if k < (trait_impls_of (find_impls db fuel items)).length then
        some (if stab = Stability.Unstable ∨
            ((trait_impls_of (find_impls db fuel items)).take (k + 1)).any
              (fun q => impl_promotes db fuel q.1 q.2) = true
          then Stability.Unstable else Stability.Stable)
      else none) :=
  parse_trait_impls_go_stability db fuel path (find_impls db fuel items) stab k

/-- Claim C3 counterexample: the second impl's own promotion condition is
false (its trait resolves and is stable, and it has no enum members), so the
claim says its record keeps the owner's `Stable`; the code emits `Unstable`
for it, inherited from the first impl of the same owner. -/
theorem parse_trait_impls_stability_sticky :
    impl_promotes c3_db 9 c3_impl2 { name := "TS", id := "tS" } = false ∧
    (parse_trait_impls c3_db 9 ["i1", "i2"] "p" Stability.Stable).map FlatRecord.stability =
      [Stability.Unstable, Stability.Unstable] ∧
    ((parse_trait_impls c3_db 9 ["i1", "i2"] "p" Stability.Stable).map
        FlatRecord.stability)[1]? ≠ some Stability.Stable := by
  refine ⟨rfl, rfl, by decide⟩
